import Mathlib

/-!
Shallow embedding of the peer-management core of the snarkOS networking crate:
`PeerQuality`, `PeerInfo`, `PeerBook` (src/network/src/peers/peer_info.rs and
peer_book.rs), the quality-based disconnect pass of `Node::update_peers`
(src/network/src/peers/peers.rs), and the crawler topology (`Connection`,
`NetworkTopology::update`, `calculate_density` in src/network/src/topology.rs).

Modelling conventions:
* `SocketAddr` is an opaque identity with decidable equality and a total order;
  it is modelled as `Nat` (`Addr`).
* Timestamps (`chrono::DateTime<Utc>`, `std::time::Instant`) are modelled as
  `Nat` instants on a monotone clock, passed explicitly to every operation that
  reads the clock in Rust (`Utc::now()` / `Instant::now()`).
* `HashMap` / `HashSet` keyed by addresses are modelled as association lists
  with insert-replaces semantics; the iteration order of a `HashMap` is
  unspecified in Rust and no statement below depends on it.
* Machine integers are `Nat` with an explicit `% 2 ^ w` exactly where the Rust
  code wraps (`AtomicU32::fetch_add` / `fetch_sub`, `as` casts, release-mode
  `+=` on `u64` counters).
* Concurrency is sequentialized: each public `PeerBook` method is one atomic
  step. The per-peer task handles (`PeerInfo.tasks`) and the emitted metrics
  gauges are runtime artefacts with no influence on the peer-book state and
  are omitted.
-/

abbrev Addr := Nat

def U32_MOD : Nat := 2 ^ 32

def U64_MOD : Nat := 2 ^ 64

/-- The struct `PeerQuality` (peer_info.rs, lines 42-60); atomics and locks are
flattened into plain fields since operations are sequentialized. -/
structure PeerQuality where
  block_height : Nat
  last_seen : Option Nat
  expecting_pong : Bool
  last_ping_sent : Option Nat
  rtt_ms : Nat
  failures : Nat
  remaining_sync_blocks : Nat
  num_messages_received : Nat
deriving DecidableEq

/-- The `Default` instance of `PeerQuality`: every atomic is zero, both
timestamps are `None`, `expecting_pong` is `false`. -/
def PeerQuality.default : PeerQuality :=
  { block_height := 0
    last_seen := none
    expecting_pong := false
    last_ping_sent := none
    rtt_ms := 0
    failures := 0
    remaining_sync_blocks := 0
    num_messages_received := 0 }

/-- Modelled from the spec: the constant `MAX_PEER_INACTIVITY_SECS` is used by
`PeerQuality::is_inactive` via `crate::MAX_PEER_INACTIVITY_SECS`, but the
`const` item defining it is not among the provided sources. The spec fixes only
its role (the inactivity threshold, in seconds), not its numeric value; the
value below is a placeholder and no theorem depends on it. -/
def MAX_PEER_INACTIVITY_SECS : Nat := 30

/-- The method `PeerQuality::is_inactive` (peer_info.rs, lines 63-73).
`now - last_seen` is a signed `chrono::Duration`; with truncated `Nat`
subtraction a negative difference becomes `0`, which compares `> threshold`
as `false`, matching the signed comparison. -/
def PeerQuality.is_inactive (q : PeerQuality) (now : Nat) : Bool :=
  match q.last_seen with
  | some last_seen => decide (MAX_PEER_INACTIVITY_SECS < now - last_seen)
  | none => true

/-- The struct `PeerInfo` (peer_info.rs, lines 78-102). The `tasks` field
(worker-task join handles) is a runtime artefact and is omitted; `quality` is
an `Arc<PeerQuality>` in Rust, here inlined because every mutation of it goes
through the `PeerBook` entry that owns it. -/
structure PeerInfo where
  address : Addr
  is_routable : Bool
  first_connected : Option Nat
  last_connected : Option Nat
  last_disconnected : Option Nat
  connected_count : Nat
  quality : PeerQuality
deriving DecidableEq

/-- The constructor `PeerInfo::new` (peer_info.rs, lines 108-119). -/
def PeerInfo.new (address : Addr) : PeerInfo :=
  { address
    is_routable := true
    first_connected := none
    last_connected := none
    last_disconnected := none
    connected_count := 0
    quality := PeerQuality.default }

/-- The method `PeerInfo::set_connected` (peer_info.rs, lines 172-182). -/
def PeerInfo.set_connected (info : PeerInfo) (now : Nat) : PeerInfo :=
  { info with
    first_connected := if info.first_connected.isNone then some now else info.first_connected
    last_connected := some now
    quality := { info.quality with last_seen := some now }
    connected_count := (info.connected_count + 1) % U64_MOD }

/-- The method `PeerInfo::set_disconnected` (peer_info.rs, lines 190-207); the
task-draining loop at the end only touches the omitted `tasks` field. -/
def PeerInfo.set_disconnected (info : PeerInfo) (now : Nat) : PeerInfo :=
  { info with
    last_disconnected := some now
    quality := { info.quality with expecting_pong := false, remaining_sync_blocks := 0 } }

/-- Setter for the `is_routable` field, used by `PeerBook::set_unroutable`. -/
def PeerInfo.set_is_routable (info : PeerInfo) (b : Bool) : PeerInfo :=
  { info with is_routable := b }

/-- Lookup in a `HashMap<SocketAddr, PeerInfo>` modelled as an association
list: the first entry with the given key wins. -/
def mfind : List (Addr × PeerInfo) → Addr → Option PeerInfo
  | [], _ => none
  | (k, v) :: rest, a => if k = a then some v else mfind rest a

/-- The `HashMap::remove` operation: drop every entry with the given key. -/
def mremove (m : List (Addr × PeerInfo)) (a : Addr) : List (Addr × PeerInfo) :=
  m.filter fun p => decide (p.1 ≠ a)

/-- The `HashMap::insert` operation: replaces any previous entry for the key. -/
def minsert (m : List (Addr × PeerInfo)) (a : Addr) (v : PeerInfo) : List (Addr × PeerInfo) :=
  (a, v) :: mremove m a

/-- The `HashSet<SocketAddr>::insert` operation. -/
def sinsert (s : List Addr) (a : Addr) : List Addr :=
  if a ∈ s then s else a :: s

/-- The `HashSet<SocketAddr>::remove` operation. -/
def sremove (s : List Addr) (a : Addr) : List Addr :=
  s.filter fun x => decide (x ≠ a)

/-- The variants of `NetworkError` relevant to the `PeerBook` operations. -/
inductive NetworkError where
  | peerAlreadyConnected
deriving DecidableEq

/-- The struct `PeerBook` (peer_book.rs, lines 70-78): the connecting set and
the two metadata maps. -/
structure PeerBook where
  connecting : List Addr
  connected : List (Addr × PeerInfo)
  disconnected : List (Addr × PeerInfo)
deriving DecidableEq

/-- The `Default` instance of `PeerBook`: all three collections empty. -/
def PeerBook.default : PeerBook :=
  { connecting := [], connected := [], disconnected := [] }

/-- The method `PeerBook::is_connecting` (peer_book.rs, lines 109-111). -/
def PeerBook.is_connecting (pb : PeerBook) (address : Addr) : Bool :=
  decide (address ∈ pb.connecting)

/-- The method `PeerBook::is_connected` (peer_book.rs, lines 117-119). -/
def PeerBook.is_connected (pb : PeerBook) (address : Addr) : Bool :=
  (mfind pb.connected address).isSome

/-- The method `PeerBook::is_disconnected` (peer_book.rs, lines 125-127). -/
def PeerBook.is_disconnected (pb : PeerBook) (address : Addr) : Bool :=
  (mfind pb.disconnected address).isSome

/-- The method `PeerBook::set_connecting` (peer_book.rs, lines 180-190). -/
def PeerBook.set_connecting (pb : PeerBook) (address : Addr) :
    Except NetworkError PeerBook :=
  if pb.is_connected address then
    .error .peerAlreadyConnected
  else
    .ok { pb with connecting := sinsert pb.connecting address }

/-- The method `PeerBook::set_connected` (peer_book.rs, lines 195-224), with
the clock reading passed in as `now`. The canonical key is
`listener = listener_opt.unwrap_or(address)`; Case 1 (a previously known peer)
removes and reuses the disconnected entry, Case 2 creates a fresh `PeerInfo`;
either way `address` is removed from the connecting set and the updated info
is inserted into the connected map under `listener` (replacing — with an error
log — any entry already there). -/
def PeerBook.set_connected (pb : PeerBook) (address : Addr) (listener? : Option Addr)
    (now : Nat) : PeerBook :=
  let listener := listener?.getD address
  match mfind pb.disconnected listener with
  | some peer_info =>
      { connecting := sremove pb.connecting address
        connected := minsert pb.connected listener (peer_info.set_connected now)
        disconnected := mremove pb.disconnected listener }
  | none =>
      { connecting := sremove pb.connecting address
        connected := minsert pb.connected listener ((PeerInfo.new listener).set_connected now)
        disconnected := pb.disconnected }

/-- The method `PeerBook::set_disconnected` (peer_book.rs, lines 230-255): the
connecting branch is checked first and short-circuits with `false`. -/
def PeerBook.set_disconnected (pb : PeerBook) (address : Addr) (now : Nat) :
    Bool × PeerBook :=
  if address ∈ pb.connecting then
    (false, { pb with connecting := sremove pb.connecting address })
  else
    match mfind pb.connected address with
    | some peer_info =>
        (true,
          { pb with
            connected := mremove pb.connected address
            disconnected := minsert pb.disconnected address (peer_info.set_disconnected now) })
    | none => (false, pb)

/-- The method `PeerBook::set_unroutable` (peer_book.rs, lines 257-262). -/
def PeerBook.set_unroutable (pb : PeerBook) (address : Addr) : PeerBook :=
  match mfind pb.disconnected address with
  | some peer_info =>
      { pb with
        disconnected := minsert pb.disconnected address (peer_info.set_is_routable false) }
  | none => pb

/-- The method `PeerBook::add_peer` (peer_book.rs, lines 267-278). -/
def PeerBook.add_peer (pb : PeerBook) (address : Addr) : PeerBook :=
  if pb.is_connected address || pb.is_disconnected address || pb.is_connecting address then
    pb
  else
    { pb with disconnected := minsert pb.disconnected address (PeerInfo.new address) }

/-- The method `PeerBook::remove_peer` (peer_book.rs, lines 305-311). -/
def PeerBook.remove_peer (pb : PeerBook) (address : Addr) (now : Nat) : PeerBook :=
  let pb := (pb.set_disconnected address now).2
  { pb with disconnected := mremove pb.disconnected address }

/-- The method `PeerBook::peer_quality` (peer_book.rs, lines 313-315). -/
def PeerBook.peer_quality (pb : PeerBook) (addr : Addr) : Option PeerQuality :=
  (mfind pb.connected addr).map PeerInfo.quality

/-- Helper encoding a mutation performed through the shared
`Arc<PeerQuality>` of a connected peer: in Rust the atomics of the map entry
are updated in place, which amounts to replacing the entry's quality block. -/
def PeerBook.update_quality (pb : PeerBook) (addr : Addr) (f : PeerQuality → PeerQuality) :
    PeerBook :=
  match mfind pb.connected addr with
  | some peer_info =>
      { pb with
        connected := minsert pb.connected addr { peer_info with quality := f peer_info.quality } }
  | none => pb

/-- The method `PeerBook::register_message` (peer_book.rs, lines 336-343). -/
def PeerBook.register_message (pb : PeerBook) (addr : Addr) (now : Nat) : PeerBook :=
  pb.update_quality addr fun q =>
    { q with
      last_seen := some now
      num_messages_received := (q.num_messages_received + 1) % U64_MOD }

/-- The method `PeerBook::sending_ping` (peer_book.rs, lines 345-354): the
timestamp is stored, then `expecting_pong` is set. -/
def PeerBook.sending_ping (pb : PeerBook) (target : Addr) (now : Nat) : PeerBook :=
  pb.update_quality target fun q =>
    { q with last_ping_sent := some now, expecting_pong := true }

/-- The method `PeerBook::received_ping` (peer_book.rs, lines 357-363);
`BlockHeight` is a `u32`. -/
def PeerBook.received_ping (pb : PeerBook) (source : Addr) (block_height : Nat) : PeerBook :=
  pb.update_quality source fun q => { q with block_height := block_height % U32_MOD }

/-- The method `PeerBook::received_pong` (peer_book.rs, lines 366-381). The
`none` result models the `unwrap` failure on a `None` value of
`last_ping_sent`; the recorded RTT is `ping_sent.elapsed().as_millis() as u64`,
i.e. `now - ping_sent` truncated to 64 bits. -/
def PeerBook.received_pong (pb : PeerBook) (source : Addr) (now : Nat) : Option PeerBook :=
  match mfind pb.connected source with
  | some peer_info =>
      let q := peer_info.quality
      if q.expecting_pong then
        match q.last_ping_sent with
        | none => none
        | some ping_sent =>
            some { pb with
              connected := minsert pb.connected source
                { peer_info with
                  quality := { q with
                    rtt_ms := (now - ping_sent) % U64_MOD
                    expecting_pong := false } } }
      else
        some { pb with
          connected := minsert pb.connected source
            { peer_info with quality := { q with failures := (q.failures + 1) % U32_MOD } } }
  | none => some pb

/-- The method `PeerBook::expecting_sync_blocks` (peer_book.rs, lines
384-392); the `usize` count is stored with `as u32`. -/
def PeerBook.expecting_sync_blocks (pb : PeerBook) (addr : Addr) (count : Nat) :
    Bool × PeerBook :=
  match mfind pb.connected addr with
  | some peer_info =>
      (true,
        { pb with
          connected := minsert pb.connected addr
            { peer_info with
              quality := { peer_info.quality with remaining_sync_blocks := count % U32_MOD } } })
  | none => (false, pb)

/-- The method `PeerBook::got_sync_block` (peer_book.rs, lines 395-404).
`fetch_sub(1)` on an `AtomicU32` wraps modulo `2 ^ 32` and returns the
previous value; the call reports `true` exactly when the previous value
was `1`. -/
def PeerBook.got_sync_block (pb : PeerBook) (addr : Addr) : Bool × PeerBook :=
  match mfind pb.connected addr with
  | some peer_info =>
      let prev := peer_info.quality.remaining_sync_blocks
      (decide (prev = 1),
        { pb with
          connected := minsert pb.connected addr
            { peer_info with
              quality := { peer_info.quality with
                remaining_sync_blocks := (prev + (U32_MOD - 1)) % U32_MOD } } })
  | none => (false, pb)

/-- The method `PeerBook::cancel_any_unfinished_syncing` (peer_book.rs, lines
407-420): the `swap(0)` and conditional failure bump on every connected peer's
shared quality block. -/
def PeerBook.cancel_any_unfinished_syncing (pb : PeerBook) : PeerBook :=
  { pb with
    connected := pb.connected.map fun p =>
      (p.1,
        { p.2 with
          quality := { p.2.quality with
            remaining_sync_blocks := 0
            failures :=
              if p.2.quality.remaining_sync_blocks ≠ 0 then (p.2.quality.failures + 1) % U32_MOD
              else p.2.quality.failures } }) }

/-- The method `PeerBook::register_failure` (peer_book.rs, lines 423-427). -/
def PeerBook.register_failure (pb : PeerBook) (addr : Addr) : PeerBook :=
  pb.update_quality addr fun q => { q with failures := (q.failures + 1) % U32_MOD }

/-- The quality condition of the disconnect loop in `Node::update_peers`
(peers.rs, lines 67-70): RTT above 1500 ms, at least 3 failures, or
inactivity. -/
def low_quality (q : PeerQuality) (now : Nat) : Bool :=
  decide (1500 < q.rtt_ms) || decide (3 ≤ q.failures) || q.is_inactive now

/-- The quality-based disconnect pass of `Node::update_peers` (peers.rs,
lines 58-74): every peer in the connected snapshot that is not a bootnode and
has low quality is passed to `disconnect_from_peer`, which calls
`PeerBook::set_disconnected` (the channel removal it also performs lives
outside the peer book). -/
def update_peers_quality_pass (pb : PeerBook) (bootnodes : List Addr) (now : Nat) :
    PeerBook :=
  let targets :=
    (pb.connected.filter fun p =>
      decide (p.1 ∉ bootnodes) && low_quality p.2.quality now).map Prod.fst
  targets.foldl (fun b addr => (b.set_disconnected addr now).2) pb

/-- One public state-mutating `PeerBook` operation, with every clock reading
the Rust code performs supplied as data. -/
inductive Op where
  | add_peer (address : Addr)
  | set_connecting (address : Addr)
  | set_connected (address : Addr) (listener? : Option Addr) (now : Nat)
  | set_disconnected (address : Addr) (now : Nat)
  | set_unroutable (address : Addr)
  | remove_peer (address : Addr) (now : Nat)
  | register_message (address : Addr) (now : Nat)
  | sending_ping (address : Addr) (now : Nat)
  | received_ping (address : Addr) (block_height : Nat)
  | received_pong (address : Addr) (now : Nat)
  | expecting_sync_blocks (address : Addr) (count : Nat)
  | got_sync_block (address : Addr)
  | cancel_any_unfinished_syncing
  | register_failure (address : Addr)
deriving DecidableEq

/-- Application of one operation to a peer book; returned flags are dropped, a
failed `set_connecting` leaves the state unchanged, and the impossible
`received_pong` unwrap failure is mapped to the unchanged state (the safety
theorem shows it never occurs on reachable states). -/
def Op.apply (pb : PeerBook) : Op → PeerBook
  | .add_peer a => pb.add_peer a
  | .set_connecting a =>
      match pb.set_connecting a with
      | .ok pb' => pb'
      | .error _ => pb
  | .set_connected a l now => pb.set_connected a l now
  | .set_disconnected a now => (pb.set_disconnected a now).2
  | .set_unroutable a => pb.set_unroutable a
  | .remove_peer a now => pb.remove_peer a now
  | .register_message a now => pb.register_message a now
  | .sending_ping a now => pb.sending_ping a now
  | .received_ping a h => pb.received_ping a h
  | .received_pong a now => (pb.received_pong a now).getD pb
  | .expecting_sync_blocks a c => (pb.expecting_sync_blocks a c).2
  | .got_sync_block a => (pb.got_sync_block a).2
  | .cancel_any_unfinished_syncing => pb.cancel_any_unfinished_syncing
  | .register_failure a => pb.register_failure a

/-- The peer book reached by running a sequence of public operations from the
default (empty) book. -/
def PeerBook.run (ops : List Op) : PeerBook :=
  ops.foldl Op.apply PeerBook.default

/-- The struct `Connection` (topology.rs, line 40): a pair of addresses whose
`PartialEq` and `Hash` ignore orientation. -/
structure Connection where
  fst : Addr
  snd : Addr
deriving DecidableEq

/-- The `PartialEq` implementation for `Connection` (topology.rs, lines 42-49):
with `(a, b) = self` and `(c, d) = other`, equality is
`a == d && b == c || a == c && b == d`. -/
def Connection.eqv (x y : Connection) : Bool :=
  (decide (x.fst = y.snd) && decide (x.snd = y.fst)) ||
    (decide (x.fst = y.fst) && decide (x.snd = y.snd))

/-- The `Hash` implementation for `Connection` (topology.rs, lines 51-67): the
two addresses are fed to the hasher in sorted order (`Greater` swaps them).
The value modelled here is the ordered pair of hasher inputs; two connections
produce the same hash exactly when these pairs coincide. -/
def Connection.hash_input (x : Connection) : Addr × Addr :=
  match compare x.fst x.snd with
  | Ordering.gt => (x.snd, x.fst)
  | _ => (x.fst, x.snd)

/-- Membership in a `HashSet<Connection>` modelled as a list: `contains` uses
the orientation-insensitive `PartialEq`. -/
def cmem (s : List Connection) (c : Connection) : Bool :=
  s.any fun x => Connection.eqv x c

/-- The `HashSet<Connection>::insert` operation: a no-op when an equal (up to
orientation) element is already present. -/
def cinsert (s : List Connection) (c : Connection) : List Connection :=
  if cmem s c then s else c :: s

/-- The `collect::<HashSet<Connection>>()` of an iterator of connections. -/
def cfromList (l : List Connection) : List Connection :=
  l.foldl cinsert []

/-- The method `NetworkTopology::update` (topology.rs, lines 76-104): build the
new connection set from the peer list, remove the existing connections that
involve the source and are absent from it, then insert all new connections. -/
def NetworkTopology.update (connections : List Connection) (source : Addr)
    (peers : List Addr) : List Connection :=
  let new_connections := cfromList (peers.map fun peer => Connection.mk source peer)
  let connections_to_remove := connections.filter fun c =>
    !cmem new_connections c && (decide (c.fst = source) || decide (c.snd = source))
  let retained := connections.filter fun c => !cmem connections_to_remove c
  new_connections.foldl cinsert retained

/-- The function `calculate_density` (topology.rs, lines 230-235). Its `f64`
arithmetic on the integral inputs supplied by `network_density` is exact and
is modelled over `ℚ`; the one operation with no rational counterpart is the
final division when the possible-connection count `pc` is zero (node count
`n ≤ 1`), where IEEE 754 yields a non-finite value (`NaN` or `±∞`), modelled
as `none`. -/
def calculate_density (n ac : ℚ) : Option ℚ :=
  let pc := n * (n - 1) / 2
  if pc = 0 then none else some (ac / pc)

/-- Disjointness of the connected and disconnected maps: the part of the
spec's three-way disjointness invariant that the code does maintain. -/
def DisjInv (pb : PeerBook) : Prop :=
  ∀ a : Addr, mfind pb.connected a = none ∨ mfind pb.disconnected a = none

/-- Per-record quality condition backing the `received_pong` unwrap: whenever
the quality expects a pong, a ping timestamp is present. -/
def QOk (info : PeerInfo) : Prop :=
  info.quality.expecting_pong = true → info.quality.last_ping_sent.isSome = true

/-- Quality invariant backing the `received_pong` unwrap: every peer recorded
in the book whose quality expects a pong has a ping timestamp. -/
def QualityInv (pb : PeerBook) : Prop :=
  ∀ (a : Addr) (info : PeerInfo),
    (mfind pb.connected a = some info ∨ mfind pb.disconnected a = some info) →
    QOk info

theorem mfind_mremove (m : List (Addr × PeerInfo)) (a x : Addr) :
    mfind (mremove m a) x = if x = a then none else mfind m x := by
  induction m with
  | nil => simp [mremove, mfind]
  | cons p rest ih =>
    obtain ⟨k, v⟩ := p
    by_cases hka : k = a
    · have h1 : mremove ((k, v) :: rest) a = mremove rest a := by
        simp [mremove, List.filter_cons, hka]
      rw [h1, ih]
      by_cases hx : x = a
      · simp [hx]
      · have hkx : k ≠ x := by
          rw [hka]
          exact fun h => hx h.symm
        simp [hx, mfind, hkx]
    · have h1 : mremove ((k, v) :: rest) a = (k, v) :: mremove rest a := by
        simp [mremove, List.filter_cons, hka]
      rw [h1]
      by_cases hkx : k = x
      · subst hkx
        simp [mfind, hka]
      · simp [mfind, hkx, ih]

theorem mfind_minsert (m : List (Addr × PeerInfo)) (a x : Addr) (v : PeerInfo) :
    mfind (minsert m a v) x = if x = a then some v else mfind m x := by
  by_cases hx : x = a
  · simp [minsert, mfind, hx]
  · simp [minsert, mfind, Ne.symm hx, hx, mfind_mremove]

theorem mfind_mem (m : List (Addr × PeerInfo)) (a : Addr) (v : PeerInfo)
    (h : mfind m a = some v) : (a, v) ∈ m := by
  induction m with
  | nil => simp [mfind] at h
  | cons p rest ih =>
    obtain ⟨k, w⟩ := p
    by_cases hk : k = a
    · subst hk
      simp [mfind] at h
      simp [h]
    · simp [mfind, hk] at h
      simp [ih h]

theorem mem_sremove (s : List Addr) (a x : Addr) :
    x ∈ sremove s a ↔ x ∈ s ∧ x ≠ a := by
  simp [sremove, List.mem_filter]

theorem mem_sinsert (s : List Addr) (a x : Addr) :
    x ∈ sinsert s a ↔ x = a ∨ x ∈ s := by
  unfold sinsert
  by_cases h : a ∈ s
  · simp [h]
    intro hx
    subst hx
    exact h
  · simp [h, List.mem_cons]

theorem mfind_map_value (g : Addr × PeerInfo → PeerInfo) (m : List (Addr × PeerInfo)) (x : Addr) :
    mfind (m.map fun p => (p.1, g p)) x = (mfind m x).map fun v => g (x, v) := by
  induction m with
  | nil => simp [mfind]
  | cons p rest ih =>
    obtain ⟨k, v⟩ := p
    by_cases hk : k = x <;> simp [mfind, hk, ih]


theorem disjInv_default : DisjInv PeerBook.default := by
  intro a
  simp [PeerBook.default, mfind]

theorem disjInv_minsert_connected (pb : PeerBook) (a : Addr) (v : PeerInfo)
    (h : DisjInv pb) (hm : mfind pb.disconnected a = none) :
    DisjInv { pb with connected := minsert pb.connected a v } := by
  intro x
  by_cases hx : x = a
  · subst hx
    right
    exact hm
  · rcases h x with h1 | h2
    · left
      show mfind (minsert pb.connected a v) x = none
      rw [mfind_minsert, if_neg hx]
      exact h1
    · right
      exact h2

theorem disjInv_update_quality (pb : PeerBook) (addr : Addr) (f : PeerQuality → PeerQuality)
    (h : DisjInv pb) : DisjInv (pb.update_quality addr f) := by
  unfold PeerBook.update_quality
  cases hm : mfind pb.connected addr with
  | none => exact h
  | some peer_info =>
    apply disjInv_minsert_connected pb addr _ h
    rcases h addr with h1 | h2
    · rw [hm] at h1
      cases h1
    · exact h2

theorem disjInv_set_disconnected (pb : PeerBook) (a : Addr) (now : Nat)
    (h : DisjInv pb) : DisjInv (pb.set_disconnected a now).2 := by
  unfold PeerBook.set_disconnected
  by_cases hcg : a ∈ pb.connecting
  · rw [if_pos hcg]
    exact h
  · rw [if_neg hcg]
    cases hm : mfind pb.connected a with
    | none => exact h
    | some peer_info =>
      intro x
      by_cases hx : x = a
      · subst hx
        left
        show mfind (mremove pb.connected x) x = none
        rw [mfind_mremove, if_pos rfl]
      · rcases h x with h1 | h2
        · left
          show mfind (mremove pb.connected a) x = none
          rw [mfind_mremove, if_neg hx]
          exact h1
        · right
          show mfind (minsert pb.disconnected a _) x = none
          rw [mfind_minsert, if_neg hx]
          exact h2

theorem disjInv_set_connected (pb : PeerBook) (a : Addr) (l? : Option Addr) (now : Nat)
    (h : DisjInv pb) : DisjInv (pb.set_connected a l? now) := by
  cases hd : mfind pb.disconnected (l?.getD a) with
  | none =>
    simp only [PeerBook.set_connected, hd]
    intro x
    by_cases hx : x = l?.getD a
    · subst hx
      right
      exact hd
    · rcases h x with h1 | h2
      · left
        show mfind (minsert pb.connected (l?.getD a) _) x = none
        rw [mfind_minsert, if_neg hx]
        exact h1
      · right
        exact h2
  | some peer_info =>
    simp only [PeerBook.set_connected, hd]
    intro x
    by_cases hx : x = l?.getD a
    · right
      show mfind (mremove pb.disconnected (l?.getD a)) x = none
      rw [mfind_mremove, if_pos hx]
    · rcases h x with h1 | h2
      · left
        show mfind (minsert pb.connected (l?.getD a) _) x = none
        rw [mfind_minsert, if_neg hx]
        exact h1
      · right
        show mfind (mremove pb.disconnected (l?.getD a)) x = none
        rw [mfind_mremove, if_neg hx]
        exact h2

theorem disjInv_apply (pb : PeerBook) (op : Op) (h : DisjInv pb) :
    DisjInv (Op.apply pb op) := by
  cases op with
  | add_peer a =>
    show DisjInv (pb.add_peer a)
    unfold PeerBook.add_peer
    by_cases hg : (pb.is_connected a || pb.is_disconnected a || pb.is_connecting a) = true
    · rw [if_pos hg]
      exact h
    · rw [if_neg hg]
      have hc : mfind pb.connected a = none := by
        cases hm : mfind pb.connected a with
        | none => rfl
        | some v =>
          exfalso
          apply hg
          simp [PeerBook.is_connected, hm]
      intro x
      by_cases hx : x = a
      · subst hx
        left
        exact hc
      · rcases h x with h1 | h2
        · left
          exact h1
        · right
          show mfind (minsert pb.disconnected a _) x = none
          rw [mfind_minsert, if_neg hx]
          exact h2
  | set_connecting a =>
    show DisjInv (match pb.set_connecting a with | .ok pb' => pb' | .error _ => pb)
    unfold PeerBook.set_connecting
    by_cases hc : pb.is_connected a = true
    · rw [if_pos hc]
      exact h
    · rw [if_neg hc]
      exact h
  | set_connected a l now => exact disjInv_set_connected pb a l now h
  | set_disconnected a now => exact disjInv_set_disconnected pb a now h
  | set_unroutable a =>
    show DisjInv (pb.set_unroutable a)
    unfold PeerBook.set_unroutable
    cases hd : mfind pb.disconnected a with
    | none => exact h
    | some peer_info =>
      intro x
      by_cases hx : x = a
      · subst hx
        left
        rcases h x with h1 | h2
        · exact h1
        · rw [hd] at h2
          cases h2
      · rcases h x with h1 | h2
        · left
          exact h1
        · right
          show mfind (minsert pb.disconnected a _) x = none
          rw [mfind_minsert, if_neg hx]
          exact h2
  | remove_peer a now =>
    show DisjInv (pb.remove_peer a now)
    simp only [PeerBook.remove_peer]
    have h2 := disjInv_set_disconnected pb a now h
    intro x
    by_cases hx : x = a
    · right
      show mfind (mremove (pb.set_disconnected a now).2.disconnected a) x = none
      rw [mfind_mremove, if_pos hx]
    · rcases h2 x with h1 | h3
      · left
        exact h1
      · right
        show mfind (mremove (pb.set_disconnected a now).2.disconnected a) x = none
        rw [mfind_mremove, if_neg hx]
        exact h3
  | register_message a now => exact disjInv_update_quality pb a _ h
  | sending_ping a now => exact disjInv_update_quality pb a _ h
  | received_ping a bh => exact disjInv_update_quality pb a _ h
  | received_pong a now =>
    show DisjInv ((pb.received_pong a now).getD pb)
    cases hm : mfind pb.connected a with
    | none =>
      simp only [PeerBook.received_pong, hm]
      exact h
    | some peer_info =>
      have hd : mfind pb.disconnected a = none := by
        rcases h a with h1 | h2
        · rw [hm] at h1
          cases h1
        · exact h2
      by_cases hexp : peer_info.quality.expecting_pong = true
      · cases hp : peer_info.quality.last_ping_sent with
        | none =>
          simp only [PeerBook.received_pong, hm, hexp, hp, if_true]
          exact h
        | some t =>
          simp only [PeerBook.received_pong, hm, hexp, hp, if_true, Option.getD_some]
          exact disjInv_minsert_connected pb a _ h hd
      · simp only [Bool.not_eq_true] at hexp
        simp only [PeerBook.received_pong, hm, hexp, Bool.false_eq_true, if_false,
          Option.getD_some]
        exact disjInv_minsert_connected pb a _ h hd
  | expecting_sync_blocks a c =>
    show DisjInv (pb.expecting_sync_blocks a c).2
    unfold PeerBook.expecting_sync_blocks
    cases hm : mfind pb.connected a with
    | none => exact h
    | some peer_info =>
      have hd : mfind pb.disconnected a = none := by
        rcases h a with h1 | h2
        · rw [hm] at h1
          cases h1
        · exact h2
      exact disjInv_minsert_connected pb a _ h hd
  | got_sync_block a =>
    show DisjInv (pb.got_sync_block a).2
    unfold PeerBook.got_sync_block
    cases hm : mfind pb.connected a with
    | none => exact h
    | some peer_info =>
      have hd : mfind pb.disconnected a = none := by
        rcases h a with h1 | h2
        · rw [hm] at h1
          cases h1
        · exact h2
      exact disjInv_minsert_connected pb a _ h hd
  | cancel_any_unfinished_syncing =>
    show DisjInv pb.cancel_any_unfinished_syncing
    unfold PeerBook.cancel_any_unfinished_syncing
    intro x
    rcases h x with h1 | h2
    · left
      show mfind (pb.connected.map _) x = none
      rw [mfind_map_value, h1]
      rfl
    · right
      exact h2
  | register_failure a => exact disjInv_update_quality pb a _ h


theorem cancel_connected_mfind (pb : PeerBook) (x : Addr) :
    mfind pb.cancel_any_unfinished_syncing.connected x =
      (mfind pb.connected x).map fun v =>
        { v with
          quality := { v.quality with
            remaining_sync_blocks := 0
            failures :=
              if v.quality.remaining_sync_blocks ≠ 0 then (v.quality.failures + 1) % U32_MOD
              else v.quality.failures } } := by
  unfold PeerBook.cancel_any_unfinished_syncing
  rw [mfind_map_value]

theorem disjInv_run (ops : List Op) : DisjInv (PeerBook.run ops) := by
  have key : ∀ (l : List Op) (pb : PeerBook), DisjInv pb → DisjInv (l.foldl Op.apply pb) := by
    intro l
    induction l with
    | nil => intro pb h; exact h
    | cons op rest ih =>
      intro pb h
      exact ih _ (disjInv_apply pb op h)
  exact key ops PeerBook.default disjInv_default

/-- C1 (amended, part 1): after any sequence of public `PeerBook` operations,
no address is simultaneously in the connected and the disconnected map. The
original three-way disjointness is refuted by `c1_counterexample`. -/
theorem c1_connected_disconnected_disjoint (ops : List Op) (a : Addr) :
    ((PeerBook.run ops).is_connected a && (PeerBook.run ops).is_disconnected a) = false := by
  rcases disjInv_run ops a with h | h <;>
    simp [PeerBook.is_connected, PeerBook.is_disconnected, h]

/-- C1 counterexample: the three sets are not mutually disjoint. After
`add_peer 0; set_connecting 0` the address 0 is both connecting and
disconnected (exactly the state the repository's own test
`test_set_connecting_from_never_connected` asserts), and after
`set_connecting 1; set_connected 0 (Some 1)` the address 1 is both connecting
and connected. -/
theorem c1_counterexample :
    ((PeerBook.run [Op.add_peer 0, Op.set_connecting 0]).is_connecting 0 = true ∧
      (PeerBook.run [Op.add_peer 0, Op.set_connecting 0]).is_disconnected 0 = true) ∧
    ((PeerBook.run [Op.set_connecting 1, Op.set_connected 0 (some 1) 5]).is_connecting 1 = true ∧
      (PeerBook.run [Op.set_connecting 1, Op.set_connected 0 (some 1) 5]).is_connected 1 = true) := by
  decide

theorem qualityInv_mk (cg : List Addr) (c d : List (Addr × PeerInfo))
    (h : ∀ (x : Addr) (info : PeerInfo),
      (mfind c x = some info ∨ mfind d x = some info) → QOk info) :
    QualityInv { connecting := cg, connected := c, disconnected := d } := h

theorem qOk_new (a : Addr) : QOk (PeerInfo.new a) := by
  intro h
  simp [PeerInfo.new, PeerQuality.default] at h

theorem qOk_update_remaining (v : PeerInfo) (n : Nat) (h : QOk v) :
    QOk { v with quality := { v.quality with remaining_sync_blocks := n } } := h

theorem qualityInv_default : QualityInv PeerBook.default := by
  intro a info h
  rcases h with h | h <;> simp [PeerBook.default, mfind] at h

theorem qualityInv_minsert_connected (pb : PeerBook) (a : Addr) (v : PeerInfo)
    (h : QualityInv pb) (hv : QOk v) :
    QualityInv { pb with connected := minsert pb.connected a v } := by
  apply qualityInv_mk
  intro x info hx
  rcases hx with hc | hd
  · rw [mfind_minsert] at hc
    by_cases hxa : x = a
    · rw [if_pos hxa] at hc
      simp only [Option.some.injEq] at hc
      subst hc
      exact hv
    · rw [if_neg hxa] at hc
      exact h x info (Or.inl hc)
  · exact h x info (Or.inr hd)

theorem qualityInv_minsert_disconnected (pb : PeerBook) (a : Addr) (v : PeerInfo)
    (h : QualityInv pb) (hv : QOk v) :
    QualityInv { pb with disconnected := minsert pb.disconnected a v } := by
  apply qualityInv_mk
  intro x info hx
  rcases hx with hc | hd
  · exact h x info (Or.inl hc)
  · rw [mfind_minsert] at hd
    by_cases hxa : x = a
    · rw [if_pos hxa] at hd
      simp only [Option.some.injEq] at hd
      subst hd
      exact hv
    · rw [if_neg hxa] at hd
      exact h x info (Or.inr hd)

theorem qualityInv_update_quality (pb : PeerBook) (addr : Addr) (f : PeerQuality → PeerQuality)
    (h : QualityInv pb)
    (hf : ∀ v : PeerInfo, QOk v → QOk { v with quality := f v.quality }) :
    QualityInv (pb.update_quality addr f) := by
  unfold PeerBook.update_quality
  cases hm : mfind pb.connected addr with
  | none => exact h
  | some peer_info =>
    exact qualityInv_minsert_connected pb addr _ h
      (hf peer_info (h addr peer_info (Or.inl hm)))

theorem qualityInv_set_disconnected (pb : PeerBook) (a : Addr) (now : Nat)
    (h : QualityInv pb) : QualityInv (pb.set_disconnected a now).2 := by
  unfold PeerBook.set_disconnected
  by_cases hcg : a ∈ pb.connecting
  · rw [if_pos hcg]
    exact h
  · rw [if_neg hcg]
    cases hm : mfind pb.connected a with
    | none => exact h
    | some peer_info =>
      apply qualityInv_mk
      intro x info hx
      rcases hx with hc | hd
      · rw [mfind_mremove] at hc
        by_cases hxa : x = a
        · rw [if_pos hxa] at hc
          cases hc
        · rw [if_neg hxa] at hc
          exact h x info (Or.inl hc)
      · rw [mfind_minsert] at hd
        by_cases hxa : x = a
        · rw [if_pos hxa] at hd
          simp only [Option.some.injEq] at hd
          subst hd
          intro hexp
          simp [PeerInfo.set_disconnected] at hexp
        · rw [if_neg hxa] at hd
          exact h x info (Or.inr hd)

set_option maxRecDepth 4000 in
theorem qualityInv_apply (pb : PeerBook) (op : Op) (h : QualityInv pb) :
    QualityInv (Op.apply pb op) := by
  cases op with
  | add_peer a =>
    show QualityInv (pb.add_peer a)
    unfold PeerBook.add_peer
    by_cases hg : (pb.is_connected a || pb.is_disconnected a || pb.is_connecting a) = true
    · rw [if_pos hg]
      exact h
    · rw [if_neg hg]
      exact qualityInv_minsert_disconnected pb a _ h (qOk_new a)
  | set_connecting a =>
    show QualityInv (match pb.set_connecting a with | .ok pb' => pb' | .error _ => pb)
    unfold PeerBook.set_connecting
    by_cases hc : pb.is_connected a = true
    · rw [if_pos hc]
      exact h
    · rw [if_neg hc]
      exact h
  | set_connected a l now =>
    show QualityInv (pb.set_connected a l now)
    cases hd : mfind pb.disconnected (l.getD a) with
    | none =>
      simp only [PeerBook.set_connected, hd]
      apply qualityInv_minsert_connected pb (l.getD a) _ h
      intro hexp
      simp [PeerInfo.set_connected, PeerInfo.new, PeerQuality.default] at hexp
    | some peer_info =>
      simp only [PeerBook.set_connected, hd]
      have hq : QOk peer_info := h (l.getD a) peer_info (Or.inr hd)
      apply qualityInv_mk
      intro x info hx
      rcases hx with hc | hdd
      · rw [mfind_minsert] at hc
        by_cases hxa : x = l.getD a
        · rw [if_pos hxa] at hc
          simp only [Option.some.injEq] at hc
          subst hc
          exact hq
        · rw [if_neg hxa] at hc
          exact h x info (Or.inl hc)
      · rw [mfind_mremove] at hdd
        by_cases hxa : x = l.getD a
        · rw [if_pos hxa] at hdd
          cases hdd
        · rw [if_neg hxa] at hdd
          exact h x info (Or.inr hdd)
  | set_disconnected a now => exact qualityInv_set_disconnected pb a now h
  | set_unroutable a =>
    show QualityInv (pb.set_unroutable a)
    unfold PeerBook.set_unroutable
    cases hd : mfind pb.disconnected a with
    | none => exact h
    | some peer_info =>
      exact qualityInv_minsert_disconnected pb a _ h (h a peer_info (Or.inr hd))
  | remove_peer a now =>
    show QualityInv (pb.remove_peer a now)
    simp only [PeerBook.remove_peer]
    have h2 := qualityInv_set_disconnected pb a now h
    apply qualityInv_mk
    intro x info hx
    rcases hx with hc | hd
    · exact h2 x info (Or.inl hc)
    · rw [mfind_mremove] at hd
      by_cases hxa : x = a
      · rw [if_pos hxa] at hd
        cases hd
      · rw [if_neg hxa] at hd
        exact h2 x info (Or.inr hd)
  | register_message a now =>
    exact qualityInv_update_quality pb a _ h (fun v hv => hv)
  | sending_ping a now =>
    exact qualityInv_update_quality pb a _ h (fun v _ => fun _ => rfl)
  | received_ping a bh =>
    exact qualityInv_update_quality pb a _ h (fun v hv => hv)
  | received_pong a now =>
    show QualityInv ((pb.received_pong a now).getD pb)
    cases hm : mfind pb.connected a with
    | none =>
      simp only [PeerBook.received_pong, hm]
      exact h
    | some peer_info =>
      by_cases hexp : peer_info.quality.expecting_pong = true
      · cases hp : peer_info.quality.last_ping_sent with
        | none =>
          simp only [PeerBook.received_pong, hm, hexp, hp, if_true]
          exact h
        | some t =>
          simp only [PeerBook.received_pong, hm, hexp, hp, if_true, Option.getD_some]
          apply qualityInv_minsert_connected pb a _ h
          intro he
          simp at he
      · simp only [Bool.not_eq_true] at hexp
        simp only [PeerBook.received_pong, hm, hexp, Bool.false_eq_true, if_false,
          Option.getD_some]
        apply qualityInv_minsert_connected pb a _ h
        intro he
        simp at he
  | expecting_sync_blocks a c =>
    show QualityInv (pb.expecting_sync_blocks a c).2
    unfold PeerBook.expecting_sync_blocks
    cases hm : mfind pb.connected a with
    | none => exact h
    | some peer_info =>
      exact qualityInv_minsert_connected pb a _ h (h a peer_info (Or.inl hm))
  | got_sync_block a =>
    show QualityInv (pb.got_sync_block a).2
    cases hm : mfind pb.connected a with
    | none =>
      simp only [PeerBook.got_sync_block, hm]
      exact h
    | some peer_info =>
      simp only [PeerBook.got_sync_block, hm]
      exact qualityInv_minsert_connected pb a _ h
        (qOk_update_remaining peer_info _ (h a peer_info (Or.inl hm)))
  | cancel_any_unfinished_syncing =>
    show QualityInv pb.cancel_any_unfinished_syncing
    apply qualityInv_mk
    intro x info hx
    rcases hx with hc | hd
    · rw [mfind_map_value] at hc
      cases hm : mfind pb.connected x with
      | none =>
        rw [hm] at hc
        cases hc
      | some v =>
        rw [hm] at hc
        simp only [Option.map, Option.some.injEq] at hc
        subst hc
        exact h x v (Or.inl hm)
    · exact h x info (Or.inr hd)
  | register_failure a =>
    exact qualityInv_update_quality pb a _ h (fun v hv => hv)

theorem qualityInv_run (ops : List Op) : QualityInv (PeerBook.run ops) := by
  have key : ∀ (l : List Op) (pb : PeerBook), QualityInv pb → QualityInv (l.foldl Op.apply pb) := by
    intro l
    induction l with
    | nil => intro pb h; exact h
    | cons op rest ih =>
      intro pb h
      exact ih _ (qualityInv_apply pb op h)
  exact key ops PeerBook.default qualityInv_default

/-- C9: the `unwrap` of `last_ping_sent` in `PeerBook::received_pong` cannot
fail on any peer book reachable through the public operations: whenever a
recorded peer's quality has `expecting_pong` set, its `last_ping_sent` is
`Some`, because `sending_ping` stores the timestamp before setting the flag
and a fresh `PeerQuality` starts with the flag unset. -/
theorem c9_received_pong_no_panic (ops : List Op) (a : Addr) (now : Nat) :
    ((PeerBook.run ops).received_pong a now).isSome = true := by
  have hinv := qualityInv_run ops
  unfold PeerBook.received_pong
  cases hm : mfind (PeerBook.run ops).connected a with
  | none => rfl
  | some peer_info =>
    by_cases hexp : peer_info.quality.expecting_pong = true
    · cases hp : peer_info.quality.last_ping_sent with
      | none =>
        have := hinv a peer_info (Or.inl hm) hexp
        rw [hp] at this
        cases this
      | some t => simp [hexp, hp]
    · simp only [Bool.not_eq_true] at hexp
      simp [hexp]

/-- C4 counterexample: in the state reached by
`set_connecting 1; set_connected 0 (Some 1)` the address 1 is in the connected
map, yet `set_disconnected 1` takes the connecting branch first and returns
`false`, refuting "returns true if and only if addr was in the connected
map". -/
theorem c4_counterexample :
    (PeerBook.run [Op.set_connecting 1, Op.set_connected 0 (some 1) 0]).is_connected 1 = true ∧
    ((PeerBook.run [Op.set_connecting 1, Op.set_connected 0 (some 1) 0]).set_disconnected 1 7).1
      = false := by
  decide

/-- C4 (amended): `set_disconnected(addr)` returns `true` iff `addr` was in
the connected map and not in the connecting set. If `addr` was connecting it
is removed from the connecting set and `false` is returned with both maps
untouched (even if `addr` is also connected); if `addr` was connected and not
connecting it is moved to the disconnected map with `expecting_pong` cleared
and `remaining_sync_blocks` zeroed and `true` is returned; if it was in
neither, `false` is returned and the book is unchanged. -/
theorem c4_set_disconnected_spec (pb : PeerBook) (addr : Addr) (now : Nat) :
    ((pb.set_disconnected addr now).1 = true ↔
      pb.is_connecting addr = false ∧ pb.is_connected addr = true) ∧
    (pb.is_connecting addr = true →
      (pb.set_disconnected addr now).2.connecting = sremove pb.connecting addr ∧
      (pb.set_disconnected addr now).2.connected = pb.connected ∧
      (pb.set_disconnected addr now).2.disconnected = pb.disconnected) ∧
    (∀ peer_info, pb.is_connecting addr = false →
      mfind pb.connected addr = some peer_info →
      (pb.set_disconnected addr now).2.connecting = pb.connecting ∧
      (pb.set_disconnected addr now).2.is_connected addr = false ∧
      mfind (pb.set_disconnected addr now).2.disconnected addr =
        some (peer_info.set_disconnected now) ∧
      (peer_info.set_disconnected now).quality.expecting_pong = false ∧
      (peer_info.set_disconnected now).quality.remaining_sync_blocks = 0) ∧
    (pb.is_connecting addr = false → pb.is_connected addr = false →
      pb.set_disconnected addr now = (false, pb)) := by
  by_cases hcg : addr ∈ pb.connecting
  · have hcgb : pb.is_connecting addr = true := by
      simpa [PeerBook.is_connecting] using hcg
    refine ⟨?_, ?_, ?_, ?_⟩
    · simp [PeerBook.set_disconnected, hcg, hcgb]
    · intro _
      refine ⟨?_, ?_, ?_⟩ <;> simp [PeerBook.set_disconnected, hcg]
    · intro peer_info hfalse _
      rw [hcgb] at hfalse
      cases hfalse
    · intro hfalse _
      rw [hcgb] at hfalse
      cases hfalse
  · have hcgb : pb.is_connecting addr = false := by
      simpa [PeerBook.is_connecting] using hcg
    cases hm : mfind pb.connected addr with
    | some peer_info =>
      refine ⟨?_, ?_, ?_, ?_⟩
      · simp [PeerBook.set_disconnected, hcg, hcgb, PeerBook.is_connected, hm]
      · intro htrue
        rw [hcgb] at htrue
        cases htrue
      · intro pi2 _ hm2
        injection hm2 with h2
        subst h2
        refine ⟨?_, ?_, ?_, rfl, rfl⟩
        · simp [PeerBook.set_disconnected, hcg, hm]
        · simp [PeerBook.set_disconnected, hcg, hm, PeerBook.is_connected, mfind_mremove]
        · simp [PeerBook.set_disconnected, hcg, hm, mfind_minsert]
      · intro _ hfalse
        simp [PeerBook.is_connected, hm] at hfalse
    | none =>
      refine ⟨?_, ?_, ?_, ?_⟩
      · simp [PeerBook.set_disconnected, hcg, hcgb, PeerBook.is_connected, hm]
      · intro htrue
        rw [hcgb] at htrue
        cases htrue
      · intro pi2 _ hm2
        cases hm2
      · intro _ _
        simp [PeerBook.set_disconnected, hcg, hm]

/-- C4 witness: the amended characterization applied to the concrete book
reached by `set_connecting 0; set_connected 0 None` — the call returns
`true` there. -/
theorem c4_set_disconnected_spec_witness :
    ((PeerBook.run [Op.set_connecting 0, Op.set_connected 0 none 3]).set_disconnected 0 7).1
      = true := by
  exact (c4_set_disconnected_spec
    (PeerBook.run [Op.set_connecting 0, Op.set_connected 0 none 3]) 0 7).1.mpr
    ⟨by decide, by decide⟩

/-- C5: `got_sync_block(addr)` returns `true` exactly at the call that
decrements `remaining_sync_blocks` from 1 to 0, and `false` at every other
call — including when `addr` is not a connected peer; when it returns `true`
the remaining count afterwards is 0. -/
theorem c5_got_sync_block_transition (pb : PeerBook) (addr : Addr) :
    ((pb.got_sync_block addr).1 = true ↔
      ∃ peer_info, mfind pb.connected addr = some peer_info ∧
        peer_info.quality.remaining_sync_blocks = 1) ∧
    (∀ peer_info, mfind pb.connected addr = some peer_info →
      peer_info.quality.remaining_sync_blocks = 1 →
      ((pb.got_sync_block addr).2.peer_quality addr).map PeerQuality.remaining_sync_blocks =
        some 0) := by
  cases hm : mfind pb.connected addr with
  | none =>
    constructor
    · simp [PeerBook.got_sync_block, hm]
    · intro peer_info hm2
      cases hm2
  | some peer_info =>
    constructor
    · simp only [PeerBook.got_sync_block, hm]
      constructor
      · intro hd
        exact ⟨peer_info, rfl, of_decide_eq_true hd⟩
      · rintro ⟨pi2, h2, h3⟩
        injection h2 with h2
        subst h2
        exact decide_eq_true h3
    · intro pi2 hm2 hrem
      injection hm2 with h2
      subst h2
      simp only [PeerBook.got_sync_block, hm, PeerBook.peer_quality, mfind_minsert, if_pos rfl,
        Option.map_some']
      rw [hrem]
      norm_num [U32_MOD]

/-- C10: when a connected peer's `remaining_sync_blocks` is already 0,
`got_sync_block` wraps the counter modulo `2 ^ 32` — the counter becomes
`2 ^ 32 - 1` rather than saturating at 0 — and the call returns `false`;
nothing guards the `fetch_sub` against going below zero. -/
theorem c10_got_sync_block_wraps (pb : PeerBook) (addr : Addr) (peer_info : PeerInfo)
    (hconn : mfind pb.connected addr = some peer_info)
    (h0 : peer_info.quality.remaining_sync_blocks = 0) :
    (pb.got_sync_block addr).1 = false ∧
    ((pb.got_sync_block addr).2.peer_quality addr).map PeerQuality.remaining_sync_blocks =
      some (2 ^ 32 - 1) := by
  constructor
  · simp only [PeerBook.got_sync_block, hconn]
    rw [h0]
    decide
  · simp only [PeerBook.got_sync_block, hconn, PeerBook.peer_quality, mfind_minsert, if_pos rfl,
      Option.map_some']
    rw [h0]
    norm_num [U32_MOD]

/-- C10 witness: a freshly connected peer has `remaining_sync_blocks = 0`;
calling `got_sync_block` there returns `false` and leaves the counter at
`2 ^ 32 - 1`. -/
theorem c10_got_sync_block_wraps_witness :
    (((PeerBook.run [Op.set_connecting 0, Op.set_connected 0 none 0]).got_sync_block 0).1
        = false) ∧
    ((((PeerBook.run [Op.set_connecting 0, Op.set_connected 0 none 0]).got_sync_block
        0).2.peer_quality 0).map PeerQuality.remaining_sync_blocks = some (2 ^ 32 - 1)) := by
  exact c10_got_sync_block_wraps (PeerBook.run [Op.set_connecting 0, Op.set_connected 0 none 0])
    0 ((PeerInfo.new 0).set_connected 0) (by decide) (by decide)

/-- C5 witness: after `expecting_sync_blocks 0 1` the call `got_sync_block 0`
returns `true` and the remaining count drops to 0. -/
theorem c5_got_sync_block_transition_witness :
    (((PeerBook.run [Op.set_connecting 0, Op.set_connected 0 none 0,
        Op.expecting_sync_blocks 0 1]).got_sync_block 0).1 = true) ∧
    ((((PeerBook.run [Op.set_connecting 0, Op.set_connected 0 none 0,
        Op.expecting_sync_blocks 0 1]).got_sync_block 0).2.peer_quality 0).map
        PeerQuality.remaining_sync_blocks = some 0) := by
  refine ⟨(c5_got_sync_block_transition (PeerBook.run [Op.set_connecting 0,
      Op.set_connected 0 none 0, Op.expecting_sync_blocks 0 1]) 0).1.mpr
      ⟨⟨0, true, some 0, some 0, none, 1, ⟨0, some 0, false, none, 0, 0, 1, 0⟩⟩,
        by decide, by decide⟩,
    (c5_got_sync_block_transition (PeerBook.run [Op.set_connecting 0,
      Op.set_connected 0 none 0, Op.expecting_sync_blocks 0 1]) 0).2
      ⟨0, true, some 0, some 0, none, 1, ⟨0, some 0, false, none, 0, 0, 1, 0⟩⟩
      (by decide) (by decide)⟩

/-- C6: for a connected peer `p`, `sending_ping(p)` at time `T` followed by
`received_pong(p)` at `T + Δ` records `rtt_ms = Δ` and clears
`expecting_pong`; a `received_pong` while `expecting_pong` is unset instead
increments the `failures` counter and leaves `rtt_ms` unchanged. The side
conditions `Δ < 2 ^ 64` and `failures + 1 < 2 ^ 32` keep the wrapped machine
arithmetic equal to its mathematical value. -/
theorem c6_ping_pong_rtt (pb : PeerBook) (p : Addr) (T Δ now : Nat) (peer_info : PeerInfo)
    (hconn : mfind pb.connected p = some peer_info)
    (hΔ : Δ < U64_MOD)
    (hf : peer_info.quality.failures + 1 < U32_MOD) :
    (∃ pb', (pb.sending_ping p T).received_pong p (T + Δ) = some pb' ∧
      (pb'.peer_quality p).map PeerQuality.rtt_ms = some Δ ∧
      (pb'.peer_quality p).map PeerQuality.expecting_pong = some false) ∧
    (peer_info.quality.expecting_pong = false →
      ∃ pb'', pb.received_pong p now = some pb'' ∧
        (pb''.peer_quality p).map PeerQuality.failures =
          some (peer_info.quality.failures + 1) ∧
        (pb''.peer_quality p).map PeerQuality.rtt_ms = some peer_info.quality.rtt_ms) := by
  constructor
  · have hs : (pb.sending_ping p T).connected =
        minsert pb.connected p
          { peer_info with quality := { peer_info.quality with
              last_ping_sent := some T, expecting_pong := true } } := by
      simp only [PeerBook.sending_ping, PeerBook.update_quality, hconn]
    have hV : mfind (pb.sending_ping p T).connected p =
        some { peer_info with quality := { peer_info.quality with
            last_ping_sent := some T, expecting_pong := true } } := by
      rw [hs, mfind_minsert, if_pos rfl]
    simp only [PeerBook.received_pong, hV]
    refine ⟨_, rfl, ?_, ?_⟩
    · simp [PeerBook.peer_quality, mfind_minsert, Option.map_some']
      exact Nat.mod_eq_of_lt hΔ
    · simp [PeerBook.peer_quality, mfind_minsert, Option.map_some']
  · intro hexp
    simp only [PeerBook.received_pong, hconn, hexp, Bool.false_eq_true, if_false]
    refine ⟨_, rfl, ?_, ?_⟩
    · simp [PeerBook.peer_quality, mfind_minsert, Option.map_some']
      rw [Nat.mod_eq_of_lt hf]
    · simp [PeerBook.peer_quality, mfind_minsert, Option.map_some']

/-- C6 witness: on a freshly connected peer, a ping at 10 answered at 35
yields `rtt_ms = 25` with the flag cleared, and a stray pong bumps `failures`
from 0 to 1 leaving `rtt_ms = 0`. -/
theorem c6_ping_pong_rtt_witness :
    (∃ pb', ((PeerBook.run [Op.set_connecting 0, Op.set_connected 0 none 0]).sending_ping
        0 10).received_pong 0 (10 + 25) = some pb' ∧
      (pb'.peer_quality 0).map PeerQuality.rtt_ms = some 25 ∧
      (pb'.peer_quality 0).map PeerQuality.expecting_pong = some false) ∧
    (∃ pb'', (PeerBook.run [Op.set_connecting 0, Op.set_connected 0 none 0]).received_pong
        0 99 = some pb'' ∧
      (pb''.peer_quality 0).map PeerQuality.failures = some 1 ∧
      (pb''.peer_quality 0).map PeerQuality.rtt_ms = some 0) := by
  have h := c6_ping_pong_rtt (PeerBook.run [Op.set_connecting 0, Op.set_connected 0 none 0])
    0 10 25 99 ⟨0, true, some 0, some 0, none, 1, ⟨0, some 0, false, none, 0, 0, 0, 0⟩⟩
    (by decide) (by decide) (by decide)
  exact ⟨h.1, h.2 (by decide)⟩

theorem set_disconnected_preserves_gone (s : PeerBook) (x y : Addr) (now : Nat)
    (h1 : s.is_connected x = false) (h2 : s.is_disconnected x = true)
    (h3 : s.is_connecting x = false) :
    (s.set_disconnected y now).2.is_connected x = false ∧
    (s.set_disconnected y now).2.is_disconnected x = true ∧
    (s.set_disconnected y now).2.is_connecting x = false := by
  have h3' : x ∉ s.connecting := by simpa [PeerBook.is_connecting] using h3
  unfold PeerBook.set_disconnected
  by_cases hcg : y ∈ s.connecting
  · rw [if_pos hcg]
    refine ⟨h1, h2, ?_⟩
    show decide (x ∈ sremove s.connecting y) = false
    simp [mem_sremove]
    intro hx
    exact absurd hx h3'
  · rw [if_neg hcg]
    cases hm : mfind s.connected y with
    | none => exact ⟨h1, h2, h3⟩
    | some pi_y =>
      by_cases hxy : x = y
      · subst hxy
        simp [PeerBook.is_connected, hm] at h1
      · refine ⟨?_, ?_, h3⟩
        · show (mfind (mremove s.connected y) x).isSome = false
          rw [mfind_mremove, if_neg hxy]
          exact h1
        · show (mfind (minsert s.disconnected y _) x).isSome = true
          rw [mfind_minsert, if_neg hxy]
          exact h2

theorem set_disconnected_hits_target (s : PeerBook) (x : Addr) (now : Nat) (pi_x : PeerInfo)
    (h1 : mfind s.connected x = some pi_x) (h3 : s.is_connecting x = false) :
    (s.set_disconnected x now).2.is_connected x = false ∧
    (s.set_disconnected x now).2.is_disconnected x = true ∧
    (s.set_disconnected x now).2.is_connecting x = false := by
  have hcg : x ∉ s.connecting := by simpa [PeerBook.is_connecting] using h3
  refine ⟨?_, ?_, ?_⟩ <;>
    simp [PeerBook.set_disconnected, hcg, h1, PeerBook.is_connected,
      PeerBook.is_disconnected, PeerBook.is_connecting, mfind_mremove, mfind_minsert]

theorem set_disconnected_preserves_target (s : PeerBook) (x y : Addr) (now : Nat)
    (pi_x : PeerInfo) (hxy : x ≠ y)
    (h1 : mfind s.connected x = some pi_x) (h3 : s.is_connecting x = false) :
    mfind (s.set_disconnected y now).2.connected x = some pi_x ∧
    (s.set_disconnected y now).2.is_connecting x = false := by
  have h3' : x ∉ s.connecting := by simpa [PeerBook.is_connecting] using h3
  unfold PeerBook.set_disconnected
  by_cases hcg : y ∈ s.connecting
  · rw [if_pos hcg]
    refine ⟨h1, ?_⟩
    show decide (x ∈ sremove s.connecting y) = false
    simp [mem_sremove]
    intro hx
    exact absurd hx h3'
  · rw [if_neg hcg]
    cases hm : mfind s.connected y with
    | none => exact ⟨h1, h3⟩
    | some pi_y =>
      refine ⟨?_, h3⟩
      show mfind (mremove s.connected y) x = some pi_x
      rw [mfind_mremove, if_neg hxy]
      exact h1

theorem fold_disconnect_gone (L : List Addr) (s : PeerBook) (x : Addr) (now : Nat)
    (h1 : s.is_connected x = false) (h2 : s.is_disconnected x = true)
    (h3 : s.is_connecting x = false) :
    (L.foldl (fun b addr => (b.set_disconnected addr now).2) s).is_connected x = false ∧
    (L.foldl (fun b addr => (b.set_disconnected addr now).2) s).is_disconnected x = true ∧
    (L.foldl (fun b addr => (b.set_disconnected addr now).2) s).is_connecting x = false := by
  induction L generalizing s with
  | nil => exact ⟨h1, h2, h3⟩
  | cons y rest ih =>
    obtain ⟨a1, a2, a3⟩ := set_disconnected_preserves_gone s x y now h1 h2 h3
    exact ih _ a1 a2 a3

theorem fold_disconnect_mem (L : List Addr) (s : PeerBook) (x : Addr) (now : Nat)
    (pi_x : PeerInfo) (hmem : x ∈ L)
    (h1 : mfind s.connected x = some pi_x)
    (h3 : s.is_connecting x = false) :
    (L.foldl (fun b addr => (b.set_disconnected addr now).2) s).is_connected x = false ∧
    (L.foldl (fun b addr => (b.set_disconnected addr now).2) s).is_disconnected x = true := by
  induction L generalizing s pi_x with
  | nil => cases hmem
  | cons y rest ih =>
    by_cases hxy : x = y
    · subst hxy
      obtain ⟨a1, a2, a3⟩ := set_disconnected_hits_target s x now pi_x h1 h3
      have hg := fold_disconnect_gone rest _ x now a1 a2 a3
      exact ⟨hg.1, hg.2.1⟩
    · rcases List.mem_cons.mp hmem with h | h
      · exact absurd h hxy
      · obtain ⟨b1, b2⟩ := set_disconnected_preserves_target s x y now pi_x hxy h1 h3
        exact ih _ _ h b1 b2

/-- C2 (amended): on a maintenance tick, the quality pass of `update_peers`
moves every peer that is connected at the start of the tick, is not a
bootnode, is not simultaneously marked connecting, and has `failures ≥ 3`
(likewise `rtt_ms > 1500` or `last_seen` older than
`MAX_PEER_INACTIVITY_SECS`) into the disconnected map. The bootnode exemption
and the connecting-overlap escape are what the counterexample forces onto the
original claim. -/
theorem c2_quality_pass_disconnects (pb : PeerBook) (bootnodes : List Addr) (now : Nat)
    (addr : Addr) (peer_info : PeerInfo)
    (hconn : mfind pb.connected addr = some peer_info)
    (hboot : addr ∉ bootnodes)
    (hconnecting : pb.is_connecting addr = false)
    (hbad : 1500 < peer_info.quality.rtt_ms ∨ 3 ≤ peer_info.quality.failures ∨
      peer_info.quality.is_inactive now = true) :
    (update_peers_quality_pass pb bootnodes now).is_connected addr = false ∧
    (update_peers_quality_pass pb bootnodes now).is_disconnected addr = true := by
  have hlow : low_quality peer_info.quality now = true := by
    unfold low_quality
    rcases hbad with h | h | h <;> simp [h]
  have hmemc : (addr, peer_info) ∈ pb.connected := mfind_mem _ _ _ hconn
  have hmem : addr ∈ (pb.connected.filter fun p =>
      decide (p.1 ∉ bootnodes) && low_quality p.2.quality now).map Prod.fst := by
    refine List.mem_map.mpr ⟨(addr, peer_info), List.mem_filter.mpr ⟨hmemc, ?_⟩, rfl⟩
    simp [hboot, hlow]
  unfold update_peers_quality_pass
  exact fold_disconnect_mem _ pb addr now peer_info hmem hconn hconnecting

/-- C2 counterexample: the claim as frozen quantifies over every connected
peer, but the code exempts bootnodes (address 0, three failures, listed as a
bootnode, stays connected) and a peer that is simultaneously in the
connecting set (address 1, three failures, stays connected because
`set_disconnected` takes the connecting branch). -/
theorem c2_counterexample :
    ((update_peers_quality_pass (PeerBook.run [Op.set_connecting 0, Op.set_connected 0 none 0,
        Op.register_failure 0, Op.register_failure 0, Op.register_failure 0]) [0] 5).is_connected 0
      = true) ∧
    ((update_peers_quality_pass (PeerBook.run [Op.set_connecting 1, Op.set_connected 0 (some 1) 0,
        Op.register_failure 1, Op.register_failure 1, Op.register_failure 1]) [] 5).is_connected 1
      = true) := by
  decide

/-- C2 witness: a non-bootnode connected peer with three registered failures
is disconnected by the quality pass. -/
theorem c2_quality_pass_disconnects_witness :
    (update_peers_quality_pass (PeerBook.run [Op.set_connecting 0, Op.set_connected 0 none 0,
        Op.register_failure 0, Op.register_failure 0, Op.register_failure 0]) [] 5).is_connected 0
      = false ∧
    (update_peers_quality_pass (PeerBook.run [Op.set_connecting 0, Op.set_connected 0 none 0,
        Op.register_failure 0, Op.register_failure 0, Op.register_failure 0]) [] 5).is_disconnected 0
      = true := by
  exact c2_quality_pass_disconnects
    (PeerBook.run [Op.set_connecting 0, Op.set_connected 0 none 0,
      Op.register_failure 0, Op.register_failure 0, Op.register_failure 0]) [] 5 0
    ⟨0, true, some 0, some 0, none, 1, ⟨0, some 0, false, none, 0, 3, 0, 0⟩⟩
    (by decide) (by decide) (by decide) (Or.inr (Or.inl (by decide)))

theorem eqv_iff (x y : Connection) :
    Connection.eqv x y = true ↔
      (x.fst = y.snd ∧ x.snd = y.fst) ∨ (x.fst = y.fst ∧ x.snd = y.snd) := by
  simp [Connection.eqv]

theorem eqv_refl (x : Connection) : Connection.eqv x x = true := by
  simp [eqv_iff]

theorem eqv_symm (x y : Connection) (h : Connection.eqv x y = true) :
    Connection.eqv y x = true := by
  rw [eqv_iff] at h ⊢
  rcases h with ⟨h1, h2⟩ | ⟨h1, h2⟩
  · exact Or.inl ⟨h2.symm, h1.symm⟩
  · exact Or.inr ⟨h1.symm, h2.symm⟩

theorem eqv_trans (x y z : Connection) (h1 : Connection.eqv x y = true)
    (h2 : Connection.eqv y z = true) : Connection.eqv x z = true := by
  rw [eqv_iff] at h1 h2 ⊢
  rcases h1 with ⟨a1, a2⟩ | ⟨a1, a2⟩ <;> rcases h2 with ⟨b1, b2⟩ | ⟨b1, b2⟩
  · exact Or.inr ⟨a1.trans b2, a2.trans b1⟩
  · exact Or.inl ⟨a1.trans b2, a2.trans b1⟩
  · exact Or.inl ⟨a1.trans b1, a2.trans b2⟩
  · exact Or.inr ⟨a1.trans b1, a2.trans b2⟩

theorem eqv_incident (x y : Connection) (s : Addr) (h : Connection.eqv x y = true) :
    (decide (x.fst = s) || decide (x.snd = s)) =
      (decide (y.fst = s) || decide (y.snd = s)) := by
  rw [eqv_iff] at h
  rcases h with ⟨h1, h2⟩ | ⟨h1, h2⟩
  · rw [h1, h2]
    exact Bool.or_comm _ _
  · rw [h1, h2]

theorem cmem_congr (s : List Connection) (c d : Connection)
    (h : Connection.eqv c d = true) : cmem s c = cmem s d := by
  induction s with
  | nil => rfl
  | cons a rest ih =>
    show (Connection.eqv a c || cmem rest c) = (Connection.eqv a d || cmem rest d)
    rw [ih]
    by_cases hac : Connection.eqv a c = true
    · rw [hac, eqv_trans a c d hac h]
    · by_cases had : Connection.eqv a d = true
      · exact absurd (eqv_trans a d c had (eqv_symm c d h)) hac
      · rw [Bool.not_eq_true] at hac had
        rw [hac, had]

theorem cmem_cinsert (s : List Connection) (c d : Connection) :
    cmem (cinsert s c) d = (Connection.eqv c d || cmem s d) := by
  unfold cinsert
  by_cases h : cmem s c = true
  · rw [if_pos h]
    by_cases hcd : Connection.eqv c d = true
    · rw [hcd, Bool.true_or, ← cmem_congr s c d hcd]
      exact h
    · rw [Bool.not_eq_true] at hcd
      rw [hcd, Bool.false_or]
  · rw [if_neg h]
    rfl

theorem cmem_foldl_cinsert (l : List Connection) (s : List Connection) (d : Connection) :
    cmem (l.foldl cinsert s) d = (cmem s d || cmem l d) := by
  induction l generalizing s with
  | nil => simp [cmem]
  | cons c rest ih =>
    show cmem (rest.foldl cinsert (cinsert s c)) d = _
    rw [ih, cmem_cinsert]
    show ((Connection.eqv c d || cmem s d) || cmem rest d) =
      (cmem s d || (Connection.eqv c d || cmem rest d))
    cases Connection.eqv c d <;> cases cmem s d <;> cases cmem rest d <;> rfl

theorem cmem_cfromList (l : List Connection) (d : Connection) :
    cmem (cfromList l) d = cmem l d := by
  unfold cfromList
  rw [cmem_foldl_cinsert]
  simp [cmem]

theorem cmem_filter (s : List Connection) (P : Connection → Bool) (d : Connection)
    (hP : ∀ x y, Connection.eqv x y = true → P x = P y) :
    cmem (s.filter P) d = (P d && cmem s d) := by
  induction s with
  | nil => simp [cmem]
  | cons a rest ih =>
    by_cases hp : P a = true
    · rw [List.filter_cons_of_pos hp]
      show (Connection.eqv a d || cmem (rest.filter P) d) = (P d && cmem (a :: rest) d)
      rw [ih]
      show _ = (P d && (Connection.eqv a d || cmem rest d))
      by_cases had : Connection.eqv a d = true
      · have hpd : P d = true := (hP a d had).symm.trans hp
        rw [had, hpd]
        simp
      · rw [Bool.not_eq_true] at had
        rw [had]
        simp
    · rw [List.filter_cons_of_neg (by simpa using hp)]
      rw [ih]
      show (P d && cmem rest d) = (P d && (Connection.eqv a d || cmem rest d))
      by_cases hpd : P d = true
      · have had : Connection.eqv a d = false := by
          by_contra hh
          rw [Bool.not_eq_false] at hh
          rw [hP a d hh, hpd] at hp
          exact hp rfl
        rw [had, Bool.false_or]
      · rw [Bool.not_eq_true] at hpd
        rw [hpd, Bool.false_and, Bool.false_and]

/-- C7: membership (modulo the orientation-insensitive equality) after
`NetworkTopology::update(source, peers)`: a connection is present afterwards
exactly when it is one of the new `(source, p)` edges, or was present before
and is not incident to `source` — i.e. the update removes exactly the
existing edges incident to `source` that are absent from the peer list, adds
every listed edge, and leaves edges not incident to `source` unchanged. -/
theorem c7_update_membership (t : List Connection) (source : Addr) (peers : List Addr)
    (c : Connection) :
    cmem (NetworkTopology.update t source peers) c =
      (cmem (peers.map fun peer => Connection.mk source peer) c ||
        (cmem t c && !(decide (c.fst = source) || decide (c.snd = source)))) := by
  have hQinv : ∀ x y, Connection.eqv x y = true →
      (!cmem (cfromList (peers.map fun peer => Connection.mk source peer)) x &&
        (decide (x.fst = source) || decide (x.snd = source))) =
      (!cmem (cfromList (peers.map fun peer => Connection.mk source peer)) y &&
        (decide (y.fst = source) || decide (y.snd = source))) := by
    intro x y h
    rw [cmem_congr _ x y h, eqv_incident x y source h]
  have hRem : ∀ d, cmem (t.filter fun c0 =>
      !cmem (cfromList (peers.map fun peer => Connection.mk source peer)) c0 &&
        (decide (c0.fst = source) || decide (c0.snd = source))) d =
      ((!cmem (cfromList (peers.map fun peer => Connection.mk source peer)) d &&
        (decide (d.fst = source) || decide (d.snd = source))) && cmem t d) := by
    intro d
    exact cmem_filter t _ d hQinv
  have hP1inv : ∀ x y, Connection.eqv x y = true →
      (!cmem (t.filter fun c0 =>
        !cmem (cfromList (peers.map fun peer => Connection.mk source peer)) c0 &&
          (decide (c0.fst = source) || decide (c0.snd = source))) x) =
      (!cmem (t.filter fun c0 =>
        !cmem (cfromList (peers.map fun peer => Connection.mk source peer)) c0 &&
          (decide (c0.fst = source) || decide (c0.snd = source))) y) := by
    intro x y h
    rw [cmem_congr _ x y h]
  simp only [NetworkTopology.update]
  rw [cmem_foldl_cinsert, cmem_filter t _ c hP1inv, hRem c, cmem_cfromList]
  cases hn : cmem (peers.map fun peer => Connection.mk source peer) c <;>
    cases ht : cmem t c <;>
      cases hi : (decide (c.fst = source) || decide (c.snd = source)) <;>
        simp [hn, ht, hi]

/-- C8: `Connection((a,b)) == Connection((b,a))` — equality ignores the
orientation of the pair — and the `Hash` implementation feeds the two
addresses to the hasher in sorted order, so any two equal connections
produce the same hasher input and hence the same hash. -/
theorem c8_connection_eq_hash :
    (∀ a b : Addr, Connection.eqv ⟨a, b⟩ ⟨b, a⟩ = true) ∧
    (∀ x y : Connection, Connection.eqv x y = true →
      Connection.hash_input x = Connection.hash_input y) := by
  constructor
  · intro a b
    rw [eqv_iff]
    exact Or.inl ⟨rfl, rfl⟩
  · intro x y h
    rw [eqv_iff] at h
    unfold Connection.hash_input
    rcases h with ⟨h1, h2⟩ | ⟨h1, h2⟩
    · rw [h1, h2]
      rcases Nat.lt_trichotomy y.fst y.snd with hlt | heq | hgt
      · rw [show compare y.snd y.fst = Ordering.gt from Nat.compare_eq_gt.mpr hlt,
          show compare y.fst y.snd = Ordering.lt from Nat.compare_eq_lt.mpr hlt]
      · rw [heq]
      · rw [show compare y.snd y.fst = Ordering.lt from Nat.compare_eq_lt.mpr hgt,
          show compare y.fst y.snd = Ordering.gt from Nat.compare_eq_gt.mpr hgt]
    · rw [h1, h2]

/-- C8 witness: the reversed pair (1,2) / (2,1) compares equal and hashes to
the same input. -/
theorem c8_connection_eq_hash_witness :
    Connection.eqv ⟨1, 2⟩ ⟨2, 1⟩ = true ∧
    Connection.hash_input ⟨1, 2⟩ = Connection.hash_input ⟨2, 1⟩ := by
  exact ⟨c8_connection_eq_hash.1 1 2, c8_connection_eq_hash.2 ⟨1, 2⟩ ⟨2, 1⟩ (by decide)⟩

/-- C3 counterexample: for one node and zero edges the claim demands density
0, but `calculate_density` divides by the zero possible-connection count and
the `f64` result is non-finite (`NaN`, modelled `none`), not 0; and with an
unconstrained edge count the value can leave `[0, 1]`: two nodes and two
edges give density 2. -/
theorem c3_counterexample :
    calculate_density 1 0 = none ∧
    calculate_density 2 2 = some 2 ∧ ¬((2 : ℚ) ≤ 1) := by
  refine ⟨?_, ?_, by norm_num⟩
  · norm_num [calculate_density]
  · norm_num [calculate_density]

/-- C3 (amended): for `n ≥ 2` nodes and any edge count `e` the computed
density equals `2·e / (n·(n−1))`; it is always ≥ 0, and it is ≤ 1 provided
`e ≤ n(n−1)/2` (the `[0,1]` bound needs that restriction); for node counts
`m ≤ 1` the division by zero makes the result non-finite (`none`), not 0. -/
theorem c3_density_formula (n e : ℕ) (hn : 2 ≤ n) :
    calculate_density (n : ℚ) (e : ℚ) =
      some (2 * (e : ℚ) / ((n : ℚ) * ((n : ℚ) - 1))) ∧
    0 ≤ 2 * (e : ℚ) / ((n : ℚ) * ((n : ℚ) - 1)) ∧
    ((e : ℚ) ≤ (n : ℚ) * ((n : ℚ) - 1) / 2 →
      2 * (e : ℚ) / ((n : ℚ) * ((n : ℚ) - 1)) ≤ 1) ∧
    (∀ m : ℕ, m ≤ 1 → ∀ a : ℕ, calculate_density (m : ℚ) (a : ℚ) = none) := by
  have hn2 : (2 : ℚ) ≤ (n : ℚ) := by exact_mod_cast hn
  have hpos : (0 : ℚ) < (n : ℚ) * ((n : ℚ) - 1) := by nlinarith
  refine ⟨?_, ?_, ?_, ?_⟩
  · unfold calculate_density
    rw [if_neg (by positivity)]
    congr 1
    rw [div_div_eq_mul_div]
    ring
  · positivity
  · intro he
    rw [div_le_one hpos]
    nlinarith
  · intro m hm a
    interval_cases m <;> norm_num [calculate_density]

/-- C3 witness: three nodes and two edges give density `2·2 / (3·2) = 2/3`. -/
theorem c3_density_formula_witness :
    calculate_density ((3 : ℕ) : ℚ) ((2 : ℕ) : ℚ) =
      some (2 * ((2 : ℕ) : ℚ) / (((3 : ℕ) : ℚ) * (((3 : ℕ) : ℚ) - 1))) := by
  exact (c3_density_formula 3 2 (by norm_num)).1
